import Mathlib

/-!
Verification of the PacketPilot-IPO measurement-statistics and
recommendation-decision pipeline.

Shallow embedding of the core logic of `ping_distribution.py`,
`dns_bench.py`, `json_schema.py` and `recommendation.py`.  Python floats
are modelled as exact rationals (`ℚ`); every numeric computation of the
embedded core is exact rational arithmetic except the sample standard
deviation, whose square root is abstracted as a function parameter
(`sqrtQ`) since no property below depends on its value.
-/

namespace PacketPilot

/-- Python built-in `min` over a non-empty list (0 on the empty list, which
never occurs at the call sites: the code guards with `if not samples`). -/
def listMin : List ℚ → ℚ
  | [] => 0
  | x :: xs => xs.foldl min x

/-- Python built-in `max` over a non-empty list (0 on the empty list). -/
def listMax : List ℚ → ℚ
  | [] => 0
  | x :: xs => xs.foldl max x

/-- Python built-in `sorted` on numbers.  Modelled by insertion sort: for a
linearly ordered type any two sorted permutations of the same list are equal,
so the choice of sorting algorithm is irrelevant for `ℚ` values. -/
def pysorted (l : List ℚ) : List ℚ := List.insertionSort (· ≤ ·) l

/-! ## `json_schema.py` -/

/-- `BufferbloatGrade` enumeration from `json_schema.py`. -/
inductive BufferbloatGrade where
  | A_PLUS
  | A
  | B
  | C
  | D
  | F
deriving DecidableEq

/-- `calculate_bufferbloat_grade` from `json_schema.py` lines 127-156. -/
def calculate_bufferbloat_grade (latency_increase_ms : ℚ) : BufferbloatGrade :=
  if latency_increase_ms < 10 then BufferbloatGrade.A_PLUS
  else if latency_increase_ms < 30 then BufferbloatGrade.A
  else if latency_increase_ms < 100 then BufferbloatGrade.B
  else if latency_increase_ms < 200 then BufferbloatGrade.C
  else if latency_increase_ms < 400 then BufferbloatGrade.D
  else BufferbloatGrade.F

/-- `ICMPResult` record from `json_schema.py` (numeric fields as `ℚ`). -/
structure ICMPResult where
  samples : ℕ
  p50 : ℚ
  p90 : ℚ
  p95 : ℚ
  p99 : ℚ
  min : ℚ
  max : ℚ
  mean : ℚ
  stddev : ℚ
  packet_loss : ℚ
  raw_samples : List ℚ
deriving DecidableEq

/-- `JitterResult` record from `json_schema.py`. -/
structure JitterResult where
  mean_jitter_ms : ℚ
  max_jitter_ms : ℚ
  packet_loss : ℚ
  out_of_order : ℕ
deriving DecidableEq

/-- `ThroughputResult` record from `json_schema.py`. -/
structure ThroughputResult where
  download_mbps : ℚ
  upload_mbps : ℚ
  retransmits : ℕ
deriving DecidableEq

/-- `BufferbloatResult` record from `json_schema.py`. -/
structure BufferbloatResult where
  idle_latency_ms : ℚ
  loaded_latency_ms : ℚ
  latency_increase_ms : ℚ
  latency_increase_pct : ℚ
  grade : BufferbloatGrade
deriving DecidableEq

/-- `DNSResult` record from `json_schema.py`. -/
structure DNSResult where
  resolver : String
  median_ms : ℚ
  p95_ms : ℚ
  success_rate : ℚ
  samples : ℕ
deriving DecidableEq

/-- `BenchmarkResult` record from `json_schema.py` restricted to the fields the
recommendation engine reads (`timestamp`, `system_info` and `metadata` are
opaque run metadata consulted by no embedded computation). -/
structure BenchmarkResult where
  target : String
  icmp : ICMPResult
  jitter : JitterResult
  throughput : ThroughputResult
  bufferbloat : BufferbloatResult
  dns : List DNSResult
deriving DecidableEq

/-! ## `ping_distribution.py` -/

/-- The nested `percentile` function of
`PingMeasurement._compute_statistics`, lines 187-196:

```
if not data: return 0.0
k = (len(data) - 1) * p
f = int(k); c = int(k) + 1
if c >= len(data): return data[-1]
return data[f] + (k - f) * (data[c] - data[f])
```

Python `int` truncates toward zero; at every call site `0 ≤ p ≤ 1`, hence
`k ≥ 0` and truncation coincides with the floor, modelled by `⌊k⌋.toNat`.
The body after the computation of the rank `k` is split off as `interp`
(`c = f + 1`, and `c ≥ len(data)` is written `len(data) ≤ f + 1`). -/
def interp (data : List ℚ) (k : ℚ) : ℚ :=
  let f : ℕ := (⌊k⌋).toNat
  if data.length ≤ f + 1 then data.getD (data.length - 1) 0
  else data.getD f 0 + (k - (f : ℚ)) * (data.getD (f + 1) 0 - data.getD f 0)

/-- See `interp` for the body; `percentile` computes the rank and guards the
empty list, exactly as lines 187-196 do. -/
def percentile (data : List ℚ) (p : ℚ) : ℚ :=
  if data.isEmpty then 0
  else interp data (((data.length - 1 : ℕ) : ℚ) * p)

/-- The percentile rule exactly as the specification words it (§4.1): rank
`k = (n-1)·p`, `f = ⌊k⌋`, `c = f+1` clamped to the last index, result
`data[f] + (k-f)·(data[c]-data[f])` — with no separate early return for the
clamped case.  Used to compare the source function against the spec text. -/
def percentileSpec (data : List ℚ) (p : ℚ) : ℚ :=
  let n := data.length
  let k : ℚ := ((n - 1 : ℕ) : ℚ) * p
  let f : ℕ := (⌊k⌋).toNat
  let c : ℕ := Min.min (f + 1) (n - 1)
  data.getD f 0 + (k - (f : ℚ)) * (data.getD c 0 - data.getD f 0)

/-- Sample variance (denominator `n-1`); `statistics.stdev` is its square
root.  The square root of a rational is irrational in general, so
`compute_statistics` takes the square-root operation as a parameter. -/
def sampleVariance (l : List ℚ) : ℚ :=
  let n : ℚ := (l.length : ℚ)
  let m : ℚ := l.sum / n
  (l.map (fun x => (x - m) ^ 2)).sum / (n - 1)

/-- `PingMeasurement._compute_statistics`, lines 161-217.  `count` is
`self.config.count`; `sqrtQ` abstracts the square root inside
`statistics.stdev` (unused on any path a claim below depends on). -/
def compute_statistics (sqrtQ : ℚ → ℚ) (count : ℕ)
    (samples : List ℚ) (failures : ℕ) : ICMPResult :=
  if samples.isEmpty then
    { samples := count
      p50 := 0, p90 := 0, p95 := 0, p99 := 0
      min := 0, max := 0, mean := 0, stddev := 0
      packet_loss := 100
      raw_samples := [] }
  else
    let sorted_samples := pysorted samples
    let total_attempts := samples.length + failures
    { samples := total_attempts
      p50 := percentile sorted_samples (50 / 100)
      p90 := percentile sorted_samples (90 / 100)
      p95 := percentile sorted_samples (95 / 100)
      p99 := percentile sorted_samples (99 / 100)
      min := listMin samples
      max := listMax samples
      mean := samples.sum / (samples.length : ℚ)
      stddev := if 1 < samples.length then sqrtQ (sampleVariance samples) else 0
      packet_loss :=
        if 0 < total_attempts then (failures : ℚ) / (total_attempts : ℚ) * 100
        else 100
      raw_samples := samples.take 100 }

/-! ## `dns_bench.py` -/

/-- Python `round` to the nearest integer, ties to even (banker rounding). -/
def roundHalfToEven (q : ℚ) : ℤ :=
  let f := ⌊q⌋
  let r := q - (f : ℚ)
  if r < 1 / 2 then f
  else if 1 / 2 < r then f + 1
  else if f % 2 = 0 then f else f + 1

/-- Python `round(q, digits)`. -/
def pyround (digits : ℕ) (q : ℚ) : ℚ :=
  ((roundHalfToEven (q * (10 : ℚ) ^ digits) : ℤ) : ℚ) / (10 : ℚ) ^ digits

/-- `statistics.median`: middle element of the sorted data for odd length,
mean of the two middle elements for even length (0 on the empty list, where
the library raises instead; never reached at the call site). -/
def pymedian (l : List ℚ) : ℚ :=
  let s := pysorted l
  let n := l.length
  if n = 0 then 0
  else if n % 2 = 1 then s.getD (n / 2) 0
  else (s.getD (n / 2 - 1) 0 + s.getD (n / 2) 0) / 2

/-- The result-collection loop of `DNSBenchmark.benchmark_resolver`, lines
144-149: each completed query result `r` is appended to `query_times` when
`r > 0` and otherwise counted as a failure (`_query_domain` signals failure
in-band by returning `-1`).  `results` is the list of per-domain query
returns in completion order. -/
def collectQueries (results : List ℚ) : List ℚ × ℕ :=
  results.foldl
    (fun acc r => if 0 < r then (acc.1 ++ [r], acc.2) else (acc.1, acc.2 + 1))
    ([], 0)

/-- Aggregation part of `DNSBenchmark.benchmark_resolver`, lines 133-179.
One query is issued per domain, so the attempt count `len(self.domains)`
equals `queryResults.length`. -/
def benchmark_resolver (resolver : String) (queryResults : List ℚ) : DNSResult :=
  let collected := collectQueries queryResults
  let query_times := collected.1
  if query_times.isEmpty then
    { resolver := resolver, median_ms := 0, p95_ms := 0, success_rate := 0
      samples := queryResults.length }
  else
    let sorted_times := pysorted query_times
    let median := pymedian sorted_times
    let p95 :=
      if 1 < sorted_times.length then
        sorted_times.getD ((⌊(sorted_times.length : ℚ) * (95 / 100)⌋).toNat) 0
      else median
    { resolver := resolver
      median_ms := pyround 2 median
      p95_ms := pyround 2 p95
      success_rate :=
        pyround 1 ((query_times.length : ℚ) / (queryResults.length : ℚ) * 100)
      samples := queryResults.length }

/-- The sort key of `DNSBenchmark.benchmark_all`, line 196:
`r.median_ms if r.median_ms > 0 else float(inf)`. -/
def dnsSortKey (r : DNSResult) : WithTop ℚ :=
  if 0 < r.median_ms then (r.median_ms : WithTop ℚ) else ⊤

/-- The ranking step of `DNSBenchmark.benchmark_all`, line 196:
`results.sort(key=...)`.  Python `list.sort` is a stable sort; insertion
sort on the key order is stable as well. -/
def dnsRank (results : List DNSResult) : List DNSResult :=
  List.insertionSort (fun a b => dnsSortKey a ≤ dnsSortKey b) results

/-! ## `recommendation.py` -/

/-- `Recommendation` record from `json_schema.py`, restricted to the fields
with decision content.  The free-text fields (`title`, `description`,
`estimated_impact`, `commands`, `rollback_commands`) are presentation
strings interpolating the measured numbers; no claim concerns them. -/
structure Recommendation where
  id : String
  confidence : String
  category : String
  requires_admin : Bool
  reversible : Bool
  risk_level : String
deriving DecidableEq

/-- `RecommendationEngine._analyze_bufferbloat`, lines 51-89. -/
def analyze_bufferbloat (b : BenchmarkResult) : Option Recommendation :=
  if 100 < b.bufferbloat.latency_increase_ms then
    some { id := "sqm_openwrt"
           confidence :=
             if 200 < b.bufferbloat.latency_increase_ms then "high" else "medium"
           category := "Router"
           requires_admin := false
           reversible := true
           risk_level := "low" }
  else none

/-- `RecommendationEngine._analyze_packet_loss`, lines 91-119. -/
def analyze_packet_loss (b : BenchmarkResult) : Option Recommendation :=
  if 1 < b.icmp.packet_loss then
    some { id := "investigate_packet_loss"
           confidence := if 5 < b.icmp.packet_loss then "high" else "medium"
           category := "System"
           requires_admin := false
           reversible := true
           risk_level := "low" }
  else none

/-- Python `min(benchmark.dns, key=lambda d: d.median_ms)`: first element
attaining the minimal key (later elements replace the current best only on a
strictly smaller key). -/
def minByMedian : List DNSResult → Option DNSResult
  | [] => none
  | x :: xs =>
      some (xs.foldl (fun best d => if d.median_ms < best.median_ms then d else best) x)

/-- `RecommendationEngine._analyze_dns`, lines 121-154.  The guard
`if not benchmark.dns or len(benchmark.dns) < 2: return` is equivalent to
`len(benchmark.dns) < 2`. -/
def analyze_dns (dns : List DNSResult) : Option Recommendation :=
  if dns.length < 2 then none
  else
    match minByMedian dns with
    | none => none
    | some fastest =>
        if fastest.median_ms < 20 ∧ 95 < fastest.success_rate then
          some { id := "dns_cloudflare_google"
                 confidence := "medium"
                 category := "DNS"
                 requires_admin := true
                 reversible := true
                 risk_level := "low" }
        else none

/-- `RecommendationEngine._analyze_jitter`, lines 156-182. -/
def analyze_jitter (b : BenchmarkResult) : Option Recommendation :=
  if 10 < b.jitter.mean_jitter_ms then
    some { id := "reduce_jitter"
           confidence := "medium"
           category := "System"
           requires_admin := false
           reversible := true
           risk_level := "low" }
  else none

/-- `RecommendationEngine._analyze_nic_settings`, lines 184-219: fires
exactly when `platform.system() == "Windows"`, independent of the
benchmark values. -/
def analyze_nic (isWindows : Bool) : Option Recommendation :=
  if isWindows then
    some { id := "nic_rss_enable"
           confidence := "medium"
           category := "NIC"
           requires_admin := true
           reversible := true
           risk_level := "low" }
  else none

/-- One rule step of `RecommendationEngine.generate`: the rule either does
nothing or appends exactly one recommendation to `self.recommendations`. -/
def runRule (acc : List Recommendation) : Option Recommendation → List Recommendation
  | none => acc
  | some rec => acc ++ [rec]

/-- `RecommendationEngine.generate`, lines 20-49: reset the accumulator to
the empty list, then run the five rules in declaration order, each appending
zero or one recommendation. -/
def generate (isWindows : Bool) (b : BenchmarkResult) : List Recommendation :=
  let recs : List Recommendation := []
  let recs := runRule recs (analyze_bufferbloat b)
  let recs := runRule recs (analyze_packet_loss b)
  let recs := runRule recs (analyze_dns b.dns)
  let recs := runRule recs (analyze_jitter b)
  let recs := runRule recs (analyze_nic isWindows)
  recs

/-! ## Helper lemmas: sorting, min/max, floor -/

lemma pysorted_sorted (l : List ℚ) : (pysorted l).Sorted (· ≤ ·) :=
  List.sorted_insertionSort _ l

lemma pysorted_perm (l : List ℚ) : (pysorted l).Perm l :=
  List.perm_insertionSort _ l

lemma pysorted_length (l : List ℚ) : (pysorted l).length = l.length :=
  (pysorted_perm l).length_eq

lemma pysorted_mem {l : List ℚ} {x : ℚ} : x ∈ pysorted l ↔ x ∈ l :=
  (pysorted_perm l).mem_iff

lemma foldl_min_le_acc (l : List ℚ) (a : ℚ) : l.foldl min a ≤ a := by
  induction l generalizing a with
  | nil => simp
  | cons x xs ih => simpa using le_trans (ih (min a x)) (min_le_left a x)

lemma foldl_min_le_mem (l : List ℚ) (a : ℚ) : ∀ x ∈ l, l.foldl min a ≤ x := by
  induction l generalizing a with
  | nil => simp
  | cons y ys ih =>
      intro x hx
      rcases List.mem_cons.1 hx with rfl | hx
      · simpa using le_trans (foldl_min_le_acc ys (min a x)) (min_le_right a x)
      · simpa using ih (min a y) x hx

lemma foldl_min_mem (l : List ℚ) (a : ℚ) : l.foldl min a = a ∨ l.foldl min a ∈ l := by
  induction l generalizing a with
  | nil => simp
  | cons y ys ih =>
      rcases ih (min a y) with h | h
      · rcases min_choice a y with h2 | h2
        · left; simpa [h2] using h
        · right
          refine List.mem_cons.2 (Or.inl ?_)
          calc List.foldl min a (y :: ys) = List.foldl min (min a y) ys := rfl
            _ = min a y := h
            _ = y := h2
      · right; right; simpa using h

lemma foldl_max_acc_le (l : List ℚ) (a : ℚ) : a ≤ l.foldl max a := by
  induction l generalizing a with
  | nil => simp
  | cons x xs ih => simpa using le_trans (le_max_left a x) (ih (max a x))

lemma foldl_max_mem_le (l : List ℚ) (a : ℚ) : ∀ x ∈ l, x ≤ l.foldl max a := by
  induction l generalizing a with
  | nil => simp
  | cons y ys ih =>
      intro x hx
      rcases List.mem_cons.1 hx with rfl | hx
      · simpa using le_trans (le_max_right a x) (foldl_max_acc_le ys (max a x))
      · simpa using ih (max a y) x hx

lemma foldl_max_mem (l : List ℚ) (a : ℚ) : l.foldl max a = a ∨ l.foldl max a ∈ l := by
  induction l generalizing a with
  | nil => simp
  | cons y ys ih =>
      rcases ih (max a y) with h | h
      · rcases max_choice a y with h2 | h2
        · left; simpa [h2] using h
        · right
          refine List.mem_cons.2 (Or.inl ?_)
          calc List.foldl max a (y :: ys) = List.foldl max (max a y) ys := rfl
            _ = max a y := h
            _ = y := h2
      · right; right; simpa using h

lemma listMin_le {l : List ℚ} : ∀ x ∈ l, listMin l ≤ x := by
  cases l with
  | nil => simp
  | cons y ys =>
      intro x hx
      rcases List.mem_cons.1 hx with rfl | hx
      · exact foldl_min_le_acc ys x
      · exact foldl_min_le_mem ys y x hx

lemma listMin_mem {l : List ℚ} (h : l ≠ []) : listMin l ∈ l := by
  cases l with
  | nil => exact absurd rfl h
  | cons y ys =>
      rcases foldl_min_mem ys y with h2 | h2
      · refine List.mem_cons.2 (Or.inl ?_)
        calc listMin (y :: ys) = List.foldl min y ys := rfl
          _ = y := h2
      · exact List.mem_cons.2 (Or.inr h2)

lemma le_listMax {l : List ℚ} : ∀ x ∈ l, x ≤ listMax l := by
  cases l with
  | nil => simp
  | cons y ys =>
      intro x hx
      rcases List.mem_cons.1 hx with rfl | hx
      · exact foldl_max_acc_le ys x
      · exact foldl_max_mem_le ys y x hx

lemma listMax_mem {l : List ℚ} (h : l ≠ []) : listMax l ∈ l := by
  cases l with
  | nil => exact absurd rfl h
  | cons y ys =>
      rcases foldl_max_mem ys y with h2 | h2
      · refine List.mem_cons.2 (Or.inl ?_)
        calc listMax (y :: ys) = List.foldl max y ys := rfl
          _ = y := h2
      · exact List.mem_cons.2 (Or.inr h2)

lemma sorted_getD_mono {data : List ℚ} (hs : data.Sorted (· ≤ ·))
    {i j : ℕ} (hij : i ≤ j) (hj : j < data.length) :
    data.getD i 0 ≤ data.getD j 0 := by
  have hi : i < data.length := lt_of_le_of_lt hij hj
  rw [List.getD_eq_getElem _ _ hi, List.getD_eq_getElem _ _ hj]
  simpa using hs.rel_get_of_le (a := ⟨i, hi⟩) (b := ⟨j, hj⟩) hij

lemma sorted_getD_zero_le_of_mem {data : List ℚ} (hs : data.Sorted (· ≤ ·))
    {x : ℚ} (hx : x ∈ data) : data.getD 0 0 ≤ x := by
  obtain ⟨i, hi, rfl⟩ := List.mem_iff_getElem.1 hx
  rw [← List.getD_eq_getElem data 0 hi]
  exact sorted_getD_mono hs (Nat.zero_le _) hi

lemma sorted_le_getD_last_of_mem {data : List ℚ} (hs : data.Sorted (· ≤ ·))
    {x : ℚ} (hx : x ∈ data) : x ≤ data.getD (data.length - 1) 0 := by
  obtain ⟨i, hi, rfl⟩ := List.mem_iff_getElem.1 hx
  rw [← List.getD_eq_getElem data 0 hi]
  exact sorted_getD_mono hs (by omega) (by omega)

lemma floor_toNat_cast {k : ℚ} (hk : 0 ≤ k) : (((⌊k⌋).toNat : ℕ) : ℚ) = (⌊k⌋ : ℚ) := by
  have h : 0 ≤ ⌊k⌋ := Int.floor_nonneg.mpr hk
  exact_mod_cast congrArg (Int.cast : ℤ → ℚ) (Int.toNat_of_nonneg h)

lemma floor_toNat_le {k : ℚ} (hk : 0 ≤ k) : (((⌊k⌋).toNat : ℕ) : ℚ) ≤ k := by
  rw [floor_toNat_cast hk]; exact Int.floor_le k

lemma lt_floor_toNat_add_one {k : ℚ} (hk : 0 ≤ k) :
    k < (((⌊k⌋).toNat : ℕ) : ℚ) + 1 := by
  rw [floor_toNat_cast hk]; exact Int.lt_floor_add_one k

lemma floor_toNat_le_of_le {k : ℚ} {n : ℕ} (hk : 0 ≤ k) (h : k ≤ (n : ℚ) - 1) :
    (⌊k⌋).toNat ≤ n - 1 := by
  have h1 : (((⌊k⌋).toNat : ℕ) : ℚ) + 1 ≤ (n : ℚ) := by
    have := floor_toNat_le hk; linarith
  have h2 : (⌊k⌋).toNat + 1 ≤ n := by exact_mod_cast h1
  omega

/-! ## Percentile lemmas -/

lemma interp_def (data : List ℚ) (k : ℚ) :
    interp data k =
      if data.length ≤ (⌊k⌋).toNat + 1 then data.getD (data.length - 1) 0
      else
        data.getD ((⌊k⌋).toNat) 0
          + (k - (((⌊k⌋).toNat : ℕ) : ℚ))
            * (data.getD ((⌊k⌋).toNat + 1) 0 - data.getD ((⌊k⌋).toNat) 0) := rfl

lemma percentile_def (data : List ℚ) (p : ℚ) :
    percentile data p =
      if data.isEmpty then 0
      else interp data (((data.length - 1 : ℕ) : ℚ) * p) := rfl

lemma percentileSpec_def (data : List ℚ) (p : ℚ) :
    percentileSpec data p =
      data.getD ((⌊((data.length - 1 : ℕ) : ℚ) * p⌋).toNat) 0
        + (((data.length - 1 : ℕ) : ℚ) * p - (((⌊((data.length - 1 : ℕ) : ℚ) * p⌋).toNat : ℕ) : ℚ))
          * (data.getD (Min.min ((⌊((data.length - 1 : ℕ) : ℚ) * p⌋).toNat + 1) (data.length - 1)) 0
              - data.getD ((⌊((data.length - 1 : ℕ) : ℚ) * p⌋).toNat) 0) := rfl

lemma length_pos_of_k_bounds {data : List ℚ} {k : ℚ} (hk0 : 0 ≤ k)
    (hkn : k ≤ (data.length : ℚ) - 1) : 1 ≤ data.length := by
  rcases Nat.eq_zero_or_pos data.length with h0 | h
  · exfalso; rw [h0] at hkn; push_cast at hkn; linarith
  · exact h

/-- Lower bound: on sorted data, the interpolated value at rank `k` is at
least the order statistic at `⌊k⌋`. -/
lemma getD_le_interp {data : List ℚ} (hs : data.Sorted (· ≤ ·))
    {k : ℚ} (hk0 : 0 ≤ k) (hkn : k ≤ (data.length : ℚ) - 1) :
    data.getD ((⌊k⌋).toNat) 0 ≤ interp data k := by
  have hn := length_pos_of_k_bounds hk0 hkn
  have hfle : (⌊k⌋).toNat ≤ data.length - 1 := floor_toNat_le_of_le hk0 hkn
  rw [interp_def]
  by_cases hb : data.length ≤ (⌊k⌋).toNat + 1
  · rw [if_pos hb]
    exact sorted_getD_mono hs hfle (by omega)
  · rw [if_neg hb]
    have hd : 0 ≤ data.getD ((⌊k⌋).toNat + 1) 0 - data.getD ((⌊k⌋).toNat) 0 :=
      sub_nonneg.2 (sorted_getD_mono hs (Nat.le_succ _) (by omega))
    have hkf : 0 ≤ k - (((⌊k⌋).toNat : ℕ) : ℚ) := sub_nonneg.2 (floor_toNat_le hk0)
    nlinarith

/-- Upper bound: on sorted data, the interpolated value at rank `k` is at
most the order statistic at the clamped index `min (⌊k⌋+1) (n-1)`. -/
lemma interp_le_getD {data : List ℚ} (hs : data.Sorted (· ≤ ·))
    {k : ℚ} (hk0 : 0 ≤ k) (hkn : k ≤ (data.length : ℚ) - 1) :
    interp data k ≤ data.getD (Min.min ((⌊k⌋).toNat + 1) (data.length - 1)) 0 := by
  have hn := length_pos_of_k_bounds hk0 hkn
  have hfle : (⌊k⌋).toNat ≤ data.length - 1 := floor_toNat_le_of_le hk0 hkn
  rw [interp_def]
  by_cases hb : data.length ≤ (⌊k⌋).toNat + 1
  · rw [if_pos hb]
    have : Min.min ((⌊k⌋).toNat + 1) (data.length - 1) = data.length - 1 := by omega
    rw [this]
  · rw [if_neg hb]
    have hmin : Min.min ((⌊k⌋).toNat + 1) (data.length - 1) = (⌊k⌋).toNat + 1 := by omega
    rw [hmin]
    have hd : 0 ≤ data.getD ((⌊k⌋).toNat + 1) 0 - data.getD ((⌊k⌋).toNat) 0 :=
      sub_nonneg.2 (sorted_getD_mono hs (Nat.le_succ _) (by omega))
    have hkf : k - (((⌊k⌋).toNat : ℕ) : ℚ) ≤ 1 := by
      have := lt_floor_toNat_add_one hk0; linarith
    nlinarith

/-- The interpolation body is monotone in the rank `k` on sorted data. -/
lemma interp_mono {data : List ℚ} (hs : data.Sorted (· ≤ ·))
    {k1 k2 : ℚ} (h0 : 0 ≤ k1) (h12 : k1 ≤ k2) (h2 : k2 ≤ (data.length : ℚ) - 1) :
    interp data k1 ≤ interp data k2 := by
  have h02 : 0 ≤ k2 := le_trans h0 h12
  have h1n : k1 ≤ (data.length : ℚ) - 1 := le_trans h12 h2
  have hn := length_pos_of_k_bounds h0 h1n
  have hf2le : (⌊k2⌋).toNat ≤ data.length - 1 := floor_toNat_le_of_le h02 h2
  have hff : (⌊k1⌋).toNat ≤ (⌊k2⌋).toNat := Int.toNat_le_toNat (Int.floor_le_floor h12)
  rcases eq_or_lt_of_le hff with heq | hlt
  · rw [interp_def, interp_def, ← heq]
    by_cases hb : data.length ≤ (⌊k1⌋).toNat + 1
    · rw [if_pos hb, if_pos hb]
    · rw [if_neg hb, if_neg hb]
      have hd : 0 ≤ data.getD ((⌊k1⌋).toNat + 1) 0 - data.getD ((⌊k1⌋).toNat) 0 :=
        sub_nonneg.2 (sorted_getD_mono hs (Nat.le_succ _) (by omega))
      nlinarith
  · calc interp data k1
        ≤ data.getD (Min.min ((⌊k1⌋).toNat + 1) (data.length - 1)) 0 :=
          interp_le_getD hs h0 h1n
      _ ≤ data.getD ((⌊k2⌋).toNat) 0 :=
          sorted_getD_mono hs (by omega) (by omega)
      _ ≤ interp data k2 := getD_le_interp hs h02 h2

lemma cast_length_sub_one {data : List ℚ} (hn : 1 ≤ data.length) :
    ((data.length - 1 : ℕ) : ℚ) = (data.length : ℚ) - 1 := by
  push_cast [Nat.cast_sub hn]
  ring

/-- The source percentile function is monotone in `p` on sorted data. -/
lemma percentile_mono {data : List ℚ} (hs : data.Sorted (· ≤ ·)) (hne : data ≠ [])
    {p q : ℚ} (hp : 0 ≤ p) (hpq : p ≤ q) (hq : q ≤ 1) :
    percentile data p ≤ percentile data q := by
  have hn : 1 ≤ data.length := List.length_pos.mpr hne
  rw [percentile_def, percentile_def, if_neg (by simpa using hne),
    if_neg (by simpa using hne)]
  apply interp_mono hs
  · exact mul_nonneg (Nat.cast_nonneg _) hp
  · exact mul_le_mul_of_nonneg_left hpq (Nat.cast_nonneg _)
  · rw [cast_length_sub_one hn]
    have h1 : (0 : ℚ) ≤ (data.length : ℚ) - 1 := by
      have : (1 : ℚ) ≤ (data.length : ℚ) := by exact_mod_cast hn
      linarith
    calc ((data.length : ℚ) - 1) * q ≤ ((data.length : ℚ) - 1) * 1 :=
          mul_le_mul_of_nonneg_left hq h1
      _ = (data.length : ℚ) - 1 := mul_one _

/-- At `p = 0` the source percentile function returns the first element. -/
lemma percentile_zero {data : List ℚ} (hne : data ≠ []) :
    percentile data 0 = data.getD 0 0 := by
  have hn : 1 ≤ data.length := List.length_pos.mpr hne
  rw [percentile_def, if_neg (by simpa using hne), mul_zero, interp_def]
  simp only [Int.floor_zero, Int.toNat_zero]
  by_cases hb : data.length ≤ 0 + 1
  · rw [if_pos hb]
    congr 1
    omega
  · rw [if_neg hb]
    push_cast
    ring

/-- At `p = 1` the source percentile function returns the last element. -/
lemma percentile_one {data : List ℚ} (hne : data ≠ []) :
    percentile data 1 = data.getD (data.length - 1) 0 := by
  rw [percentile_def, if_neg (by simpa using hne), mul_one, interp_def]
  have hfl : (⌊((data.length - 1 : ℕ) : ℚ)⌋).toNat = data.length - 1 := by
    rw [Int.floor_natCast]
    exact Int.toNat_natCast _
  rw [hfl, if_pos (by omega)]

/-- The source percentile function agrees with the percentile rule exactly as
the specification words it, for `0 ≤ p ≤ 1` on a non-empty list. -/
lemma percentile_eq_percentileSpec {data : List ℚ} (hne : data ≠ [])
    {p : ℚ} (hp : 0 ≤ p) (hp1 : p ≤ 1) :
    percentile data p = percentileSpec data p := by
  have hn : 1 ≤ data.length := List.length_pos.mpr hne
  set k : ℚ := ((data.length - 1 : ℕ) : ℚ) * p with hk
  have hk0 : 0 ≤ k := mul_nonneg (Nat.cast_nonneg _) hp
  have hkn : k ≤ (data.length : ℚ) - 1 := by
    rw [hk, cast_length_sub_one hn]
    have h1 : (0 : ℚ) ≤ (data.length : ℚ) - 1 := by
      have : (1 : ℚ) ≤ (data.length : ℚ) := by exact_mod_cast hn
      linarith
    calc ((data.length : ℚ) - 1) * p ≤ ((data.length : ℚ) - 1) * 1 :=
          mul_le_mul_of_nonneg_left hp1 h1
      _ = (data.length : ℚ) - 1 := mul_one _
  have hfle : (⌊k⌋).toNat ≤ data.length - 1 := floor_toNat_le_of_le hk0 hkn
  rw [percentile_def, if_neg (by simpa using hne), percentileSpec_def, interp_def, ← hk]
  by_cases hb : data.length ≤ (⌊k⌋).toNat + 1
  · rw [if_pos hb]
    have hf : (⌊k⌋).toNat = data.length - 1 := by omega
    have hmin : Min.min ((⌊k⌋).toNat + 1) (data.length - 1) = data.length - 1 := by omega
    rw [hmin, hf]
    ring
  · rw [if_neg hb]
    have hmin : Min.min ((⌊k⌋).toNat + 1) (data.length - 1) = (⌊k⌋).toNat + 1 := by omega
    rw [hmin]

lemma pysorted_ne_nil {l : List ℚ} (hne : l ≠ []) : pysorted l ≠ [] := by
  intro h
  apply hne
  have := pysorted_length l
  rw [h] at this
  exact List.length_eq_zero.1 this.symm

lemma getD_zero_mem {l : List ℚ} (hne : l ≠ []) : l.getD 0 0 ∈ l := by
  have hn : 0 < l.length := List.length_pos.mpr hne
  rw [List.getD_eq_getElem _ _ hn]
  exact List.getElem_mem hn

lemma getD_last_mem {l : List ℚ} (hne : l ≠ []) : l.getD (l.length - 1) 0 ∈ l := by
  have hn : 0 < l.length := List.length_pos.mpr hne
  rw [List.getD_eq_getElem _ _ (by omega)]
  exact List.getElem_mem (by omega)

lemma sorted_listMin_eq {data : List ℚ} (hs : data.Sorted (· ≤ ·)) (hne : data ≠ []) :
    listMin data = data.getD 0 0 :=
  le_antisymm (listMin_le _ (getD_zero_mem hne))
    (sorted_getD_zero_le_of_mem hs (listMin_mem hne))

lemma sorted_listMax_eq {data : List ℚ} (hs : data.Sorted (· ≤ ·)) (hne : data ≠ []) :
    listMax data = data.getD (data.length - 1) 0 :=
  le_antisymm (sorted_le_getD_last_of_mem hs (listMax_mem hne))
    (le_listMax _ (getD_last_mem hne))

lemma listMin_le_percentile {samples : List ℚ} (hne : samples ≠ []) {p : ℚ}
    (hp : 0 ≤ p) (hp1 : p ≤ 1) :
    listMin samples ≤ percentile (pysorted samples) p := by
  have hne2 : pysorted samples ≠ [] := pysorted_ne_nil hne
  calc listMin samples
      ≤ (pysorted samples).getD 0 0 :=
        listMin_le _ (pysorted_mem.1 (getD_zero_mem hne2))
    _ = percentile (pysorted samples) 0 := (percentile_zero hne2).symm
    _ ≤ percentile (pysorted samples) p :=
        percentile_mono (pysorted_sorted _) hne2 le_rfl hp hp1

lemma percentile_le_listMax {samples : List ℚ} (hne : samples ≠ []) {p : ℚ}
    (hp : 0 ≤ p) (hp1 : p ≤ 1) :
    percentile (pysorted samples) p ≤ listMax samples := by
  have hne2 : pysorted samples ≠ [] := pysorted_ne_nil hne
  calc percentile (pysorted samples) p
      ≤ percentile (pysorted samples) 1 :=
        percentile_mono (pysorted_sorted _) hne2 hp hp1 le_rfl
    _ = (pysorted samples).getD ((pysorted samples).length - 1) 0 := percentile_one hne2
    _ ≤ listMax samples := le_listMax _ (pysorted_mem.1 (getD_last_mem hne2))

lemma compute_statistics_eq_of_ne_nil (sqrtQ : ℚ → ℚ) (count : ℕ) {samples : List ℚ}
    (failures : ℕ) (hne : samples ≠ []) :
    compute_statistics sqrtQ count samples failures =
      { samples := samples.length + failures
        p50 := percentile (pysorted samples) (50 / 100)
        p90 := percentile (pysorted samples) (90 / 100)
        p95 := percentile (pysorted samples) (95 / 100)
        p99 := percentile (pysorted samples) (99 / 100)
        min := listMin samples
        max := listMax samples
        mean := samples.sum / (samples.length : ℚ)
        stddev := if 1 < samples.length then sqrtQ (sampleVariance samples) else 0
        packet_loss :=
          if 0 < samples.length + failures
          then (failures : ℚ) / ((samples.length + failures : ℕ) : ℚ) * 100
          else 100
        raw_samples := samples.take 100 } := by
  unfold compute_statistics
  rw [if_neg (by simpa using hne)]

/-- C2: for every non-empty sorted sample list, the percentile function
computes rank `k = (n-1)·p`, `f = ⌊k⌋`, `c = f+1` clamped to the last index,
and returns `data[f] + (k-f)·(data[c]-data[f])` (the function equals the
spec formula `percentileSpec`); it is monotone in `p` (hence
`p50 ≤ p90 ≤ p95 ≤ p99` for any sample set), and `percentile(data,0)` is the
minimum and `percentile(data,1)` the maximum of the stored samples. -/
theorem C2_percentile_interpolation (data : List ℚ) (hne : data ≠ [])
    (hs : data.Sorted (· ≤ ·)) (p q : ℚ) (hp : 0 ≤ p) (hpq : p ≤ q) (hq : q ≤ 1) :
    percentile data p = percentileSpec data p ∧
    percentile data p ≤ percentile data q ∧
    percentile data 0 = listMin data ∧
    percentile data 1 = listMax data := by
  refine ⟨percentile_eq_percentileSpec hne hp (le_trans hpq hq),
    percentile_mono hs hne hp hpq hq, ?_, ?_⟩
  · rw [percentile_zero hne, sorted_listMin_eq hs hne]
  · rw [percentile_one hne, sorted_listMax_eq hs hne]

/-- Witness for C2 at the concrete sorted list `[10, 20]`, `p = 1/2`,
`q = 9/10`. -/
theorem C2_percentile_interpolation_witness :
    (([10, 20] : List ℚ) ≠ [] ∧ ([10, 20] : List ℚ).Sorted (· ≤ ·) ∧
      (0 : ℚ) ≤ 1/2 ∧ (1/2 : ℚ) ≤ 9/10 ∧ (9/10 : ℚ) ≤ 1) ∧
    (percentile [10, 20] (1/2) = percentileSpec [10, 20] (1/2) ∧
      percentile [10, 20] (1/2) ≤ percentile [10, 20] (9/10) ∧
      percentile [10, 20] 0 = listMin [10, 20] ∧
      percentile [10, 20] 1 = listMax [10, 20]) :=
  ⟨⟨by with_unfolding_all decide, by with_unfolding_all decide,
      by with_unfolding_all decide, by with_unfolding_all decide,
      by with_unfolding_all decide⟩,
    C2_percentile_interpolation [10, 20] (by with_unfolding_all decide)
      (by with_unfolding_all decide) (1/2) (9/10) (by with_unfolding_all decide)
      (by with_unfolding_all decide) (by with_unfolding_all decide)⟩

/-- C7: every ICMPResult produced from at least one successful sample
satisfies `min ≤ p50 ≤ p90 ≤ p95 ≤ p99 ≤ max`. -/
theorem C7_icmp_ordering_invariant (sqrtQ : ℚ → ℚ) (count : ℕ)
    (samples : List ℚ) (failures : ℕ) (hne : samples ≠ []) :
    (compute_statistics sqrtQ count samples failures).min
        ≤ (compute_statistics sqrtQ count samples failures).p50 ∧
    (compute_statistics sqrtQ count samples failures).p50
        ≤ (compute_statistics sqrtQ count samples failures).p90 ∧
    (compute_statistics sqrtQ count samples failures).p90
        ≤ (compute_statistics sqrtQ count samples failures).p95 ∧
    (compute_statistics sqrtQ count samples failures).p95
        ≤ (compute_statistics sqrtQ count samples failures).p99 ∧
    (compute_statistics sqrtQ count samples failures).p99
        ≤ (compute_statistics sqrtQ count samples failures).max := by
  rw [compute_statistics_eq_of_ne_nil sqrtQ count failures hne]
  have hne2 : pysorted samples ≠ [] := pysorted_ne_nil hne
  have hs := pysorted_sorted samples
  refine ⟨?_, ?_, ?_, ?_, ?_⟩
  · exact listMin_le_percentile hne (by norm_num) (by norm_num)
  · exact percentile_mono hs hne2 (by norm_num) (by norm_num) (by norm_num)
  · exact percentile_mono hs hne2 (by norm_num) (by norm_num) (by norm_num)
  · exact percentile_mono hs hne2 (by norm_num) (by norm_num) (by norm_num)
  · exact percentile_le_listMax hne (by norm_num) (by norm_num)

/-- Witness for C7 at a concrete sample set. -/
theorem C7_icmp_ordering_invariant_witness :
    (([20, 10, 30] : List ℚ) ≠ []) ∧
    ((compute_statistics (fun x => x) 5 [20, 10, 30] 1).min
        ≤ (compute_statistics (fun x => x) 5 [20, 10, 30] 1).p50 ∧
      (compute_statistics (fun x => x) 5 [20, 10, 30] 1).p50
        ≤ (compute_statistics (fun x => x) 5 [20, 10, 30] 1).p90 ∧
      (compute_statistics (fun x => x) 5 [20, 10, 30] 1).p90
        ≤ (compute_statistics (fun x => x) 5 [20, 10, 30] 1).p95 ∧
      (compute_statistics (fun x => x) 5 [20, 10, 30] 1).p95
        ≤ (compute_statistics (fun x => x) 5 [20, 10, 30] 1).p99 ∧
      (compute_statistics (fun x => x) 5 [20, 10, 30] 1).p99
        ≤ (compute_statistics (fun x => x) 5 [20, 10, 30] 1).max) :=
  ⟨by with_unfolding_all decide,
    C7_icmp_ordering_invariant (fun x => x) 5 [20, 10, 30] 1
      (by with_unfolding_all decide)⟩

/-- C1 counterexample: with configured count 7 and failure count 3, the
sentinel result stores `samples = 7` (the configured count), not the failure
count 3, refuting the claim that the samples field equals the failure count
regardless of any other configured count. -/
theorem C1_counterexample :
    (compute_statistics (fun x => x) 7 [] 3).samples = 7 ∧ (7 : ℕ) ≠ 3 :=
  ⟨rfl, by decide⟩

/-- C1 (amended): computing latency statistics from an empty
successful-sample collection returns the sentinel ICMPResult —
`packet_loss = 100.0`, all percentiles and min/max/mean/stddev 0,
`raw_samples` empty — and the `samples` field equals the CONFIGURED COUNT,
regardless of the failure count. -/
theorem C1_empty_samples_sentinel (sqrtQ : ℚ → ℚ) (count failures : ℕ) :
    compute_statistics sqrtQ count [] failures =
      { samples := count
        p50 := 0, p90 := 0, p95 := 0, p99 := 0
        min := 0, max := 0, mean := 0, stddev := 0
        packet_loss := 100
        raw_samples := [] } := rfl

/-- C4: the bufferbloat grading function is a pure function of
`latency_increase_ms` with fixed thresholds, lower bounds inclusive:
`<10 → A+`, `[10,30) → A`, `[30,100) → B`, `[100,200) → C`, `[200,400) → D`,
`≥400 → F`; in particular `grade(10)=A`, `grade(100)=C`, `grade(400)=F`. -/
theorem C4_bufferbloat_grade_thresholds (v : ℚ) :
    (calculate_bufferbloat_grade v = BufferbloatGrade.A_PLUS ↔ v < 10) ∧
    (calculate_bufferbloat_grade v = BufferbloatGrade.A ↔ 10 ≤ v ∧ v < 30) ∧
    (calculate_bufferbloat_grade v = BufferbloatGrade.B ↔ 30 ≤ v ∧ v < 100) ∧
    (calculate_bufferbloat_grade v = BufferbloatGrade.C ↔ 100 ≤ v ∧ v < 200) ∧
    (calculate_bufferbloat_grade v = BufferbloatGrade.D ↔ 200 ≤ v ∧ v < 400) ∧
    (calculate_bufferbloat_grade v = BufferbloatGrade.F ↔ 400 ≤ v) ∧
    calculate_bufferbloat_grade 10 = BufferbloatGrade.A ∧
    calculate_bufferbloat_grade 100 = BufferbloatGrade.C ∧
    calculate_bufferbloat_grade 400 = BufferbloatGrade.F := by
  refine ⟨?_, ?_, ?_, ?_, ?_, ?_, by with_unfolding_all decide,
    by with_unfolding_all decide, by with_unfolding_all decide⟩ <;>
  · unfold calculate_bufferbloat_grade
    split_ifs <;> simp_all <;> intros <;> linarith

/-- C6: for every non-empty sample list with failure count F, the computed
`packet_loss` equals `F / (len(samples) + F) × 100` — the denominator is
exactly successes plus failures — and the min and max fields are the exact
extremes of the samples. -/
theorem C6_packet_loss_and_extremes (sqrtQ : ℚ → ℚ) (count : ℕ)
    (samples : List ℚ) (failures : ℕ) (hne : samples ≠ []) :
    (compute_statistics sqrtQ count samples failures).packet_loss
        = (failures : ℚ) / ((samples.length : ℚ) + (failures : ℚ)) * 100 ∧
    (compute_statistics sqrtQ count samples failures).min ∈ samples ∧
    (∀ x ∈ samples, (compute_statistics sqrtQ count samples failures).min ≤ x) ∧
    (compute_statistics sqrtQ count samples failures).max ∈ samples ∧
    (∀ x ∈ samples, x ≤ (compute_statistics sqrtQ count samples failures).max) := by
  rw [compute_statistics_eq_of_ne_nil sqrtQ count failures hne]
  have hn : 0 < samples.length := List.length_pos.mpr hne
  refine ⟨?_, listMin_mem hne, listMin_le, listMax_mem hne, le_listMax⟩
  show (if 0 < samples.length + failures
      then (failures : ℚ) / ((samples.length + failures : ℕ) : ℚ) * 100 else 100)
    = (failures : ℚ) / ((samples.length : ℚ) + (failures : ℚ)) * 100
  rw [if_pos (by omega)]
  push_cast
  ring_nf

/-- Witness for C6: 95 successful samples and 5 failures give
`packet_loss = 5.0` exactly, with min and max matching the extremes. -/
theorem C6_packet_loss_and_extremes_witness :
    ((List.replicate 95 (10 : ℚ)) ≠ []) ∧
    ((compute_statistics (fun x => x) 100 (List.replicate 95 (10 : ℚ)) 5).packet_loss
        = (5 : ℚ) / (((List.replicate 95 (10 : ℚ)).length : ℚ) + (5 : ℚ)) * 100 ∧
      (compute_statistics (fun x => x) 100 (List.replicate 95 (10 : ℚ)) 5).min
        ∈ List.replicate 95 (10 : ℚ) ∧
      (∀ x ∈ List.replicate 95 (10 : ℚ),
        (compute_statistics (fun x => x) 100 (List.replicate 95 (10 : ℚ)) 5).min ≤ x) ∧
      (compute_statistics (fun x => x) 100 (List.replicate 95 (10 : ℚ)) 5).max
        ∈ List.replicate 95 (10 : ℚ) ∧
      (∀ x ∈ List.replicate 95 (10 : ℚ),
        x ≤ (compute_statistics (fun x => x) 100 (List.replicate 95 (10 : ℚ)) 5).max)) ∧
    (compute_statistics (fun x => x) 100 (List.replicate 95 (10 : ℚ)) 5).packet_loss = 5 :=
  ⟨by with_unfolding_all decide,
    C6_packet_loss_and_extremes (fun x => x) 100 (List.replicate 95 (10 : ℚ)) 5
      (by with_unfolding_all decide),
    by with_unfolding_all decide⟩

/-! ## DNS query collection (C10) -/

lemma collectQueries_foldl (l : List ℚ) (acc : List ℚ × ℕ) :
    l.foldl (fun acc r => if 0 < r then (acc.1 ++ [r], acc.2) else (acc.1, acc.2 + 1)) acc
      = (acc.1 ++ l.filter (fun r => decide (0 < r)),
         acc.2 + (l.filter (fun r => decide ¬(0 < r))).length) := by
  induction l generalizing acc with
  | nil => simp
  | cons x xs ih =>
      rw [List.foldl_cons, List.filter_cons, List.filter_cons]
      by_cases hx : 0 < x
      · rw [if_pos hx, ih, if_pos (by simpa using hx), if_neg (by simpa using hx)]
        simp [List.append_assoc]
      · rw [if_neg hx, ih, if_neg (by simpa using hx), if_pos (by simpa using hx)]
        have h2 : acc.2 + 1 + (xs.filter (fun r => decide ¬(0 < r))).length
            = acc.2 + (x :: xs.filter (fun r => decide ¬(0 < r))).length := by
          simp only [List.length_cons]
          omega
        rw [Prod.mk.injEq]
        exact ⟨rfl, h2⟩

lemma filter_pos_length_add (l : List ℚ) :
    (l.filter (fun r => decide (0 < r))).length
      + (l.filter (fun r => decide ¬(0 < r))).length = l.length := by
  induction l with
  | nil => simp
  | cons x xs ih =>
      rw [List.filter_cons, List.filter_cons]
      by_cases hx : 0 < x
      · rw [if_pos (by simpa using hx), if_neg (by simpa using hx)]
        simp only [List.length_cons]
        omega
      · rw [if_neg (by simpa using hx), if_pos (by simpa using hx)]
        simp only [List.length_cons]
        omega

/-- C10: a DNS query whose measured latency is exactly 0 (or negative) is
counted as a failed attempt, not a successful sample: the collected sample
list is exactly the strictly-positive results, the failure count is exactly
the number of non-positive results (failure is signalled in-band by `-1` and
success is tested with `result > 0`), and the two counts partition the
attempts. -/
theorem C10_zero_latency_counts_as_failure (results : List ℚ) :
    (collectQueries results).1 = results.filter (fun r => decide (0 < r)) ∧
    (collectQueries results).2 = (results.filter (fun r => decide ¬(0 < r))).length ∧
    (collectQueries results).1.length + (collectQueries results).2 = results.length ∧
    (∀ r ∈ results, r ≤ 0 → r ∉ (collectQueries results).1) ∧
    (∀ r ∈ (collectQueries results).1, 0 < r) := by
  have h := collectQueries_foldl results ([], 0)
  unfold collectQueries
  rw [h]
  refine ⟨by simp, by simp, by simpa using filter_pos_length_add results, ?_, ?_⟩
  · intro r _ hr0 hmem
    have hmem2 : r ∈ List.filter (fun x => decide (0 < x)) results := hmem
    have h2 := (List.mem_filter.1 hmem2).2
    simp only [decide_eq_true_eq] at h2
    linarith
  · intro r hr
    have hr2 : r ∈ List.filter (fun x => decide (0 < x)) results := hr
    have h2 := (List.mem_filter.1 hr2).2
    simp only [decide_eq_true_eq] at h2
    exact h2

/-- Witness for C10 at the concrete completion-order results `[0, -1, 5]`:
the zero-latency query is not a sample and the failure count is 2. -/
theorem C10_zero_latency_counts_as_failure_witness :
    ((0 : ℚ) ∈ ([0, -1, 5] : List ℚ) ∧ (0 : ℚ) ≤ 0) ∧
    (0 : ℚ) ∉ (collectQueries [0, -1, 5]).1 ∧
    (collectQueries [0, -1, 5]).2 = 2 :=
  ⟨⟨by with_unfolding_all decide, by with_unfolding_all decide⟩,
    (C10_zero_latency_counts_as_failure [0, -1, 5]).2.2.2.1 0
      (by with_unfolding_all decide) (by with_unfolding_all decide),
    by with_unfolding_all decide⟩

/-! ## DNS recommendation rule (C8) -/

lemma foldl_minBy_le (xs : List DNSResult) (b : DNSResult) :
    ((xs.foldl (fun best d => if d.median_ms < best.median_ms then d else best) b).median_ms
        ≤ b.median_ms) ∧
    ∀ d ∈ xs,
      (xs.foldl (fun best d => if d.median_ms < best.median_ms then d else best) b).median_ms
        ≤ d.median_ms := by
  induction xs generalizing b with
  | nil => simp
  | cons y ys ih =>
      constructor
      · by_cases hy : y.median_ms < b.median_ms
        · simp only [List.foldl_cons, if_pos hy]
          exact le_trans (ih y).1 (le_of_lt hy)
        · simp only [List.foldl_cons, if_neg hy]
          exact (ih b).1
      · intro d hd
        rcases List.mem_cons.1 hd with rfl | hd
        · by_cases hy : d.median_ms < b.median_ms
          · simp only [List.foldl_cons, if_pos hy]
            exact (ih d).1
          · simp only [List.foldl_cons, if_neg hy]
            exact le_trans (ih b).1 (not_lt.1 hy)
        · by_cases hy : y.median_ms < b.median_ms
          · simp only [List.foldl_cons, if_pos hy]
            exact (ih y).2 d hd
          · simp only [List.foldl_cons, if_neg hy]
            exact (ih b).2 d hd

lemma foldl_minBy_mem (xs : List DNSResult) (b : DNSResult) :
    (xs.foldl (fun best d => if d.median_ms < best.median_ms then d else best) b) = b ∨
    (xs.foldl (fun best d => if d.median_ms < best.median_ms then d else best) b) ∈ xs := by
  induction xs generalizing b with
  | nil => simp
  | cons y ys ih =>
      by_cases hy : y.median_ms < b.median_ms
      · rcases ih y with h | h
        · right
          refine List.mem_cons.2 (Or.inl ?_)
          calc (y :: ys).foldl (fun best d => if d.median_ms < best.median_ms then d else best) b
              = ys.foldl (fun best d => if d.median_ms < best.median_ms then d else best) y := by
                simp only [List.foldl_cons, if_pos hy]
            _ = y := h
        · right
          refine List.mem_cons.2 (Or.inr ?_)
          simpa only [List.foldl_cons, if_pos hy] using h
      · rcases ih b with h | h
        · left
          simpa only [List.foldl_cons, if_neg hy] using h
        · right
          refine List.mem_cons.2 (Or.inr ?_)
          simpa only [List.foldl_cons, if_neg hy] using h

lemma minByMedian_spec {dns : List DNSResult} {f : DNSResult}
    (h : minByMedian dns = some f) :
    f ∈ dns ∧ ∀ d ∈ dns, f.median_ms ≤ d.median_ms := by
  cases dns with
  | nil => simp [minByMedian] at h
  | cons x xs =>
      unfold minByMedian at h
      obtain rfl := Option.some.inj h
      constructor
      · rcases foldl_minBy_mem xs x with h2 | h2
        · exact List.mem_cons.2 (Or.inl h2)
        · exact List.mem_cons.2 (Or.inr h2)
      · intro d hd
        rcases List.mem_cons.1 hd with rfl | hd
        · exact (foldl_minBy_le xs d).1
        · exact (foldl_minBy_le xs x).2 d hd

/-- C8: the DNS recommendation rule never fires with fewer than 2 DNS
results; when it fires, the selected resolver attains the minimum
`median_ms`, that minimum is below 20 ms, its success rate exceeds 95, and
the emitted recommendation always has confidence `medium` and
`requires_admin = true`; conversely with ≥2 results, a minimal resolver with
median < 20 and success rate > 95 makes it fire. -/
theorem C8_dns_rule (dns : List DNSResult) :
    (dns.length < 2 → analyze_dns dns = none) ∧
    (∀ rec, analyze_dns dns = some rec →
      2 ≤ dns.length ∧ rec.confidence = "medium" ∧ rec.requires_admin = true ∧
      ∃ fastest, minByMedian dns = some fastest ∧ fastest ∈ dns ∧
        fastest.median_ms < 20 ∧ 95 < fastest.success_rate ∧
        ∀ d ∈ dns, fastest.median_ms ≤ d.median_ms) ∧
    (∀ fastest, minByMedian dns = some fastest →
      2 ≤ dns.length → fastest.median_ms < 20 → 95 < fastest.success_rate →
      analyze_dns dns =
        some { id := "dns_cloudflare_google", confidence := "medium",
               category := "DNS", requires_admin := true, reversible := true,
               risk_level := "low" }) := by
  refine ⟨?_, ?_, ?_⟩
  · intro h
    unfold analyze_dns
    rw [if_pos h]
  · intro rec h
    unfold analyze_dns at h
    by_cases hlen : dns.length < 2
    · rw [if_pos hlen] at h
      exact absurd h (by simp)
    · rw [if_neg hlen] at h
      cases hmin : minByMedian dns with
      | none => rw [hmin] at h; simp at h
      | some fastest =>
          rw [hmin] at h
          simp only at h
          by_cases hcond : fastest.median_ms < 20 ∧ 95 < fastest.success_rate
          · rw [if_pos hcond] at h
            obtain rfl := Option.some.inj h
            obtain ⟨hmem, hle⟩ := minByMedian_spec hmin
            exact ⟨by omega, rfl, rfl, fastest, rfl, hmem, hcond.1, hcond.2, hle⟩
          · rw [if_neg hcond] at h
            simp at h
  · intro fastest hmin hlen h20 h95
    unfold analyze_dns
    rw [if_neg (by omega), hmin]
    show (if fastest.median_ms < 20 ∧ 95 < fastest.success_rate
        then some (⟨"dns_cloudflare_google", "medium", "DNS", true, true,
          "low"⟩ : Recommendation)
        else none)
      = some ⟨"dns_cloudflare_google", "medium", "DNS", true, true, "low"⟩
    rw [if_pos ⟨h20, h95⟩]

/-- Witness for C8: a single extremely fast resolver never fires the rule. -/
theorem C8_dns_rule_witness :
    (([⟨"1.1.1.1", 5, 8, 100, 20⟩] : List DNSResult).length < 2) ∧
    analyze_dns [⟨"1.1.1.1", 5, 8, 100, 20⟩] = none :=
  ⟨by with_unfolding_all decide,
    (C8_dns_rule [⟨"1.1.1.1", 5, 8, 100, 20⟩]).1 (by with_unfolding_all decide)⟩

/-! ## Rule evaluation order (C9) -/

lemma runRule_eq (acc : List Recommendation) (o : Option Recommendation) :
    runRule acc o = acc ++ o.toList := by
  cases o <;> simp [runRule]

lemma generate_eq (w : Bool) (b : BenchmarkResult) :
    generate w b =
      (analyze_bufferbloat b).toList ++ (analyze_packet_loss b).toList
        ++ (analyze_dns b.dns).toList ++ (analyze_jitter b).toList
        ++ (analyze_nic w).toList := by
  unfold generate
  simp [runRule_eq, List.append_assoc]

/-- C9: rules are evaluated independently with no short-circuiting, each
`generate` call starting from an empty list, and the output is in
rule-declaration order (bufferbloat, packet loss, DNS, jitter, NIC); for a
BenchmarkResult with `latency_increase_ms = 220`, `icmp.packet_loss = 8.5`
and `jitter.mean_jitter_ms = 15`, the output contains the SQM/bufferbloat,
packet-loss-investigation and jitter recommendations in that order, and the
SQM entry has confidence high (since 220 > 200). -/
theorem C9_rule_independence (w : Bool) (b : BenchmarkResult)
    (h1 : b.bufferbloat.latency_increase_ms = 220)
    (h2 : b.icmp.packet_loss = 17 / 2)
    (h3 : b.jitter.mean_jitter_ms = 15) :
    generate w b =
      (analyze_bufferbloat b).toList ++ (analyze_packet_loss b).toList
        ++ (analyze_dns b.dns).toList ++ (analyze_jitter b).toList
        ++ (analyze_nic w).toList ∧
    analyze_bufferbloat b
      = some ⟨"sqm_openwrt", "high", "Router", false, true, "low"⟩ ∧
    analyze_packet_loss b
      = some ⟨"investigate_packet_loss", "high", "System", false, true, "low"⟩ ∧
    analyze_jitter b
      = some ⟨"reduce_jitter", "medium", "System", false, true, "low"⟩ ∧
    List.Sublist
      [(⟨"sqm_openwrt", "high", "Router", false, true, "low"⟩ : Recommendation),
        ⟨"investigate_packet_loss", "high", "System", false, true, "low"⟩,
        ⟨"reduce_jitter", "medium", "System", false, true, "low"⟩]
      (generate w b) := by
  have hb : analyze_bufferbloat b
      = some ⟨"sqm_openwrt", "high", "Router", false, true, "low"⟩ := by
    unfold analyze_bufferbloat
    rw [h1]
    norm_num
  have hl : analyze_packet_loss b
      = some ⟨"investigate_packet_loss", "high", "System", false, true, "low"⟩ := by
    unfold analyze_packet_loss
    rw [h2]
    norm_num
  have hj : analyze_jitter b
      = some ⟨"reduce_jitter", "medium", "System", false, true, "low"⟩ := by
    unfold analyze_jitter
    rw [h3]
    norm_num
  refine ⟨generate_eq w b, hb, hl, hj, ?_⟩
  rw [generate_eq w b, hb, hl, hj]
  simp only [Option.toList_some, List.append_assoc, List.cons_append, List.nil_append]
  refine List.Sublist.cons₂ _ (List.Sublist.cons₂ _ ?_)
  exact (List.Sublist.cons₂ _ (List.nil_sublist _)).trans
    (List.sublist_append_right _ _)

/-- Witness for C9 at a concrete BenchmarkResult tripping the bufferbloat,
packet-loss and jitter rules simultaneously. -/
theorem C9_rule_independence_witness :
    ((⟨"t", ⟨1000, 15, 25, 30, 50, 10, 100, 20, 10, 17/2, []⟩, ⟨15, 30, 4, 20⟩,
        ⟨80, 15, 25⟩, ⟨15, 235, 220, 1466, BufferbloatGrade.F⟩,
        []⟩ : BenchmarkResult).bufferbloat.latency_increase_ms = 220 ∧
      (⟨"t", ⟨1000, 15, 25, 30, 50, 10, 100, 20, 10, 17/2, []⟩, ⟨15, 30, 4, 20⟩,
        ⟨80, 15, 25⟩, ⟨15, 235, 220, 1466, BufferbloatGrade.F⟩,
        []⟩ : BenchmarkResult).icmp.packet_loss = 17/2 ∧
      (⟨"t", ⟨1000, 15, 25, 30, 50, 10, 100, 20, 10, 17/2, []⟩, ⟨15, 30, 4, 20⟩,
        ⟨80, 15, 25⟩, ⟨15, 235, 220, 1466, BufferbloatGrade.F⟩,
        []⟩ : BenchmarkResult).jitter.mean_jitter_ms = 15) ∧
    List.Sublist
      [(⟨"sqm_openwrt", "high", "Router", false, true, "low"⟩ : Recommendation),
        ⟨"investigate_packet_loss", "high", "System", false, true, "low"⟩,
        ⟨"reduce_jitter", "medium", "System", false, true, "low"⟩]
      (generate false
        ⟨"t", ⟨1000, 15, 25, 30, 50, 10, 100, 20, 10, 17/2, []⟩, ⟨15, 30, 4, 20⟩,
          ⟨80, 15, 25⟩, ⟨15, 235, 220, 1466, BufferbloatGrade.F⟩, []⟩) :=
  ⟨⟨rfl, rfl, rfl⟩,
    (C9_rule_independence false
      ⟨"t", ⟨1000, 15, 25, 30, 50, 10, 100, 20, 10, 17/2, []⟩, ⟨15, 30, 4, 20⟩,
        ⟨80, 15, 25⟩, ⟨15, 235, 220, 1466, BufferbloatGrade.F⟩, []⟩
      rfl rfl rfl).2.2.2.2⟩

/-! ## DNS ranking (C5) -/

lemma dnsKey_le_interp {a b : DNSResult} (h : dnsSortKey a ≤ dnsSortKey b) :
    (0 < a.median_ms → 0 < b.median_ms → a.median_ms ≤ b.median_ms) ∧
    (¬ 0 < a.median_ms → ¬ 0 < b.median_ms) := by
  constructor
  · intro ha hb
    unfold dnsSortKey at h
    rw [if_pos ha, if_pos hb] at h
    exact_mod_cast h
  · intro ha hb
    unfold dnsSortKey at h
    rw [if_neg ha, if_pos hb] at h
    exact absurd (top_le_iff.1 h) (by simp)

/-- C5: ranking sorts the benchmarked resolvers ascending by `median_ms`,
except that every resolver whose `median_ms` is 0 (total failure) is ordered
after all resolvers with `median_ms > 0`; the ordering substitutes a large
sentinel only in the comparison, and the sort is a permutation — every
stored DNSResult (in particular its `median_ms` field) is unchanged;
`{X: all fail, Y: 8ms, Z: 15ms}` ranks as `[Y, Z, X]`. -/
theorem C5_dns_ranking (results : List DNSResult) :
    List.Pairwise (fun a b => dnsSortKey a ≤ dnsSortKey b) (dnsRank results) ∧
    List.Pairwise (fun a b =>
      (0 < a.median_ms → 0 < b.median_ms → a.median_ms ≤ b.median_ms) ∧
      (¬ 0 < a.median_ms → ¬ 0 < b.median_ms)) (dnsRank results) ∧
    (dnsRank results).Perm results ∧
    (∀ r ∈ dnsRank results, r ∈ results) ∧
    dnsRank [⟨"X", 0, 0, 0, 20⟩, ⟨"Y", 8, 12, 99, 20⟩, ⟨"Z", 15, 22, 98, 20⟩]
      = [⟨"Y", 8, 12, 99, 20⟩, ⟨"Z", 15, 22, 98, 20⟩, ⟨"X", 0, 0, 0, 20⟩] := by
  haveI : IsTotal DNSResult (fun a b => dnsSortKey a ≤ dnsSortKey b) :=
    ⟨fun a b => le_total _ _⟩
  haveI : IsTrans DNSResult (fun a b => dnsSortKey a ≤ dnsSortKey b) :=
    ⟨fun _ _ _ h1 h2 => le_trans h1 h2⟩
  have hsorted := List.sorted_insertionSort
    (fun a b : DNSResult => dnsSortKey a ≤ dnsSortKey b) results
  have hperm := List.perm_insertionSort
    (fun a b : DNSResult => dnsSortKey a ≤ dnsSortKey b) results
  refine ⟨hsorted, hsorted.imp (fun h => dnsKey_le_interp h), hperm,
    fun r hr => hperm.mem_iff.1 hr, by with_unfolding_all decide⟩

/-- Witness for C5 applying the ranking theorem at the concrete three-resolver
instance from the spec. -/
theorem C5_dns_ranking_witness :
    (dnsRank [⟨"X", 0, 0, 0, 20⟩, ⟨"Y", 8, 12, 99, 20⟩, ⟨"Z", 15, 22, 98, 20⟩]).Perm
      [⟨"X", 0, 0, 0, 20⟩, ⟨"Y", 8, 12, 99, 20⟩, ⟨"Z", 15, 22, 98, 20⟩] ∧
    dnsRank [⟨"X", 0, 0, 0, 20⟩, ⟨"Y", 8, 12, 99, 20⟩, ⟨"Z", 15, 22, 98, 20⟩]
      = [⟨"Y", 8, 12, 99, 20⟩, ⟨"Z", 15, 22, 98, 20⟩, ⟨"X", 0, 0, 0, 20⟩] :=
  ⟨(C5_dns_ranking [⟨"X", 0, 0, 0, 20⟩, ⟨"Y", 8, 12, 99, 20⟩,
      ⟨"Z", 15, 22, 98, 20⟩]).2.2.1,
    (C5_dns_ranking [⟨"X", 0, 0, 0, 20⟩, ⟨"Y", 8, 12, 99, 20⟩,
      ⟨"Z", 15, 22, 98, 20⟩]).2.2.2.2⟩

/-! ## DNS per-resolver aggregation (C3) -/

lemma pymedian_def (l : List ℚ) :
    pymedian l =
      if l.length = 0 then 0
      else if l.length % 2 = 1 then (pysorted l).getD (l.length / 2) 0
      else ((pysorted l).getD (l.length / 2 - 1) 0
              + (pysorted l).getD (l.length / 2) 0) / 2 := rfl

lemma pysorted_of_sorted {l : List ℚ} (hs : l.Sorted (· ≤ ·)) : pysorted l = l :=
  List.Sorted.insertionSort_eq hs

/-- `statistics.median` coincides with the §4.1 linear-interpolation rule at
`p = 1/2`. -/
lemma pymedian_eq_percentile_half (l : List ℚ) (hne : l ≠ []) :
    pymedian l = percentile (pysorted l) (1 / 2) := by
  have hn : 1 ≤ l.length := List.length_pos.mpr hne
  have hlen : (pysorted l).length = l.length := pysorted_length l
  have hne2 : pysorted l ≠ [] := pysorted_ne_nil hne
  have hR : percentile (pysorted l) (1 / 2)
      = interp (pysorted l) (((l.length - 1 : ℕ) : ℚ) * (1 / 2)) := by
    rw [percentile_def, if_neg (by simpa using hne2), hlen]
  rw [hR, pymedian_def, if_neg (by omega)]
  rcases Nat.mod_two_eq_zero_or_one l.length with hpar | hpar
  · -- even length: l.length = 2m + 2
    obtain ⟨m, hm⟩ : ∃ m, l.length = 2 * m + 2 := ⟨l.length / 2 - 1, by omega⟩
    rw [if_neg (by omega)]
    have hk : ((l.length - 1 : ℕ) : ℚ) * (1 / 2) = (m : ℚ) + 1 / 2 := by
      have h21 : (l.length - 1 : ℕ) = 2 * m + 1 := by omega
      rw [h21]
      push_cast
      ring
    have hfl : ⌊(m : ℚ) + 1 / 2⌋ = (m : ℤ) := by
      rw [Int.floor_eq_iff]
      constructor
      · push_cast; linarith
      · push_cast; linarith
    rw [interp_def, hk, hlen, hfl, Int.toNat_natCast, if_neg (by omega)]
    have h1 : l.length / 2 - 1 = m := by omega
    have h2 : l.length / 2 = m + 1 := by omega
    rw [h1, h2]
    ring
  · -- odd length: l.length = 2m + 1
    obtain ⟨m, hm⟩ : ∃ m, l.length = 2 * m + 1 := ⟨l.length / 2, by omega⟩
    rw [if_pos hpar]
    have hk : ((l.length - 1 : ℕ) : ℚ) * (1 / 2) = (m : ℚ) := by
      have h21 : (l.length - 1 : ℕ) = 2 * m := by omega
      rw [h21]
      push_cast
      ring
    rw [interp_def, hk, hlen, Int.floor_natCast, Int.toNat_natCast]
    by_cases hm0 : m = 0
    · rw [if_pos (by omega)]
      have h1 : l.length / 2 = 0 := by omega
      have h2 : l.length - 1 = 0 := by omega
      rw [h1, h2]
    · rw [if_neg (by omega)]
      have h1 : l.length / 2 = m := by omega
      rw [h1]
      ring

lemma benchmark_resolver_eq_of_ne_nil (resolver : String) (queryResults : List ℚ)
    (hne : (collectQueries queryResults).1 ≠ []) :
    benchmark_resolver resolver queryResults =
      { resolver := resolver
        median_ms := pyround 2 (pymedian (pysorted (collectQueries queryResults).1))
        p95_ms := pyround 2
          (if 1 < (pysorted (collectQueries queryResults).1).length then
            (pysorted (collectQueries queryResults).1).getD
              ((⌊((pysorted (collectQueries queryResults).1).length : ℚ)
                  * (95 / 100)⌋).toNat) 0
          else pymedian (pysorted (collectQueries queryResults).1))
        success_rate := pyround 1 (((collectQueries queryResults).1.length : ℚ)
            / (queryResults.length : ℚ) * 100)
        samples := queryResults.length } := by
  unfold benchmark_resolver
  rw [if_neg (by simpa using hne)]

lemma p95_index_lt {n : ℕ} (hn : 1 ≤ n) : (⌊(n : ℚ) * (95 / 100)⌋).toNat < n := by
  have hn1 : (1 : ℚ) ≤ (n : ℚ) := by exact_mod_cast hn
  have hx : (n : ℚ) * (95 / 100) < (n : ℚ) := by nlinarith
  have h1 : ⌊(n : ℚ) * (95 / 100)⌋ < (n : ℤ) := Int.floor_lt.mpr (by exact_mod_cast hx)
  omega

/-- C3 counterexample: a resolver with the two successful query times 10 ms
and 20 ms gets `p95_ms = 20` from the code (the sorted sample at index
`int(2·0.95) = 1`), whereas the §4.1 linear-interpolation rule at `p = 0.95`
gives `10 + 0.95·(20-10) = 19.5`; so the per-resolver p95 is NOT computed by
the interpolation rule of §4.1 whenever more than one sample exists. -/
theorem C3_counterexample :
    (collectQueries [10, 20]).1.length = 2 ∧
    (benchmark_resolver "r" [10, 20]).p95_ms = 20 ∧
    pyround 2 (percentile (pysorted (collectQueries [10, 20]).1) (95 / 100)) = 39 / 2 ∧
    (benchmark_resolver "r" [10, 20]).p95_ms
      ≠ pyround 2 (percentile (pysorted (collectQueries [10, 20]).1) (95 / 100)) := by
  with_unfolding_all decide

/-- C3 (amended): for every resolver with at least one successful query, the
per-resolver aggregation computes `median_ms` as the §4.1
linear-interpolation percentile at `p = 1/2` (rounded to 2 digits), but
`p95_ms` is NOT interpolated: with exactly one successful sample it equals
the median (that single value), and with two or more samples it is the
sorted successful sample at upper index `⌊0.95·n⌋` — an actual sample, not
an interpolated value. -/
theorem C3_dns_percentiles (resolver : String) (queryResults : List ℚ)
    (hne : (collectQueries queryResults).1 ≠ []) :
    (benchmark_resolver resolver queryResults).median_ms
        = pyround 2 (percentile (pysorted (collectQueries queryResults).1) (1 / 2)) ∧
    ((collectQueries queryResults).1.length = 1 →
      (benchmark_resolver resolver queryResults).p95_ms
        = (benchmark_resolver resolver queryResults).median_ms) ∧
    (1 < (collectQueries queryResults).1.length →
      (benchmark_resolver resolver queryResults).p95_ms
          = pyround 2 ((pysorted (collectQueries queryResults).1).getD
              ((⌊(((collectQueries queryResults).1.length : ℕ) : ℚ)
                  * (95 / 100)⌋).toNat) 0) ∧
      (pysorted (collectQueries queryResults).1).getD
          ((⌊(((collectQueries queryResults).1.length : ℕ) : ℚ)
              * (95 / 100)⌋).toNat) 0
        ∈ (collectQueries queryResults).1) := by
  have hlen : (pysorted (collectQueries queryResults).1).length
      = (collectQueries queryResults).1.length :=
    pysorted_length _
  have hsorted : (pysorted (collectQueries queryResults).1).Sorted (· ≤ ·) :=
    pysorted_sorted _
  have hmed : pymedian (pysorted (collectQueries queryResults).1)
      = percentile (pysorted (collectQueries queryResults).1) (1 / 2) := by
    rw [pymedian_eq_percentile_half _ (pysorted_ne_nil hne),
      pysorted_of_sorted hsorted]
  rw [benchmark_resolver_eq_of_ne_nil resolver queryResults hne]
  refine ⟨by rw [hmed], ?_, ?_⟩
  · intro h1
    show pyround 2 (if 1 < (pysorted (collectQueries queryResults).1).length
        then _ else pymedian (pysorted (collectQueries queryResults).1)) = _
    rw [if_neg (by omega)]
  · intro h1
    constructor
    · show pyround 2 (if 1 < (pysorted (collectQueries queryResults).1).length
          then _ else _) = _
      rw [if_pos (by omega), hlen]
    · have hidx := p95_index_lt
        (n := (collectQueries queryResults).1.length) (by omega)
      rw [← pysorted_mem (l := (collectQueries queryResults).1),
        List.getD_eq_getElem _ _ (by omega)]
      exact List.getElem_mem _

/-- Witness for C3 (amended) at the concrete query results `[10, 20]`. -/
theorem C3_dns_percentiles_witness :
    ((collectQueries [10, 20]).1 ≠ []) ∧
    ((benchmark_resolver "r" [10, 20]).median_ms
        = pyround 2 (percentile (pysorted (collectQueries [10, 20]).1) (1 / 2)) ∧
      ((collectQueries [10, 20]).1.length = 1 →
        (benchmark_resolver "r" [10, 20]).p95_ms
          = (benchmark_resolver "r" [10, 20]).median_ms) ∧
      (1 < (collectQueries [10, 20]).1.length →
        (benchmark_resolver "r" [10, 20]).p95_ms
            = pyround 2 ((pysorted (collectQueries [10, 20]).1).getD
                ((⌊(((collectQueries [10, 20]).1.length : ℕ) : ℚ)
                    * (95 / 100)⌋).toNat) 0) ∧
        (pysorted (collectQueries [10, 20]).1).getD
            ((⌊(((collectQueries [10, 20]).1.length : ℕ) : ℚ)
                * (95 / 100)⌋).toNat) 0
          ∈ (collectQueries [10, 20]).1)) :=
  ⟨by with_unfolding_all decide,
    C3_dns_percentiles "r" [10, 20] (by with_unfolding_all decide)⟩

end PacketPilot
